import Mathlib

/-!
Verification of the encrypted-files backend (`src/encrypted_files_backend/src/lib.rs`).

The canister state is embedded shallowly:
* `candid::Principal` becomes an opaque comparable token (`Nat`);
* `ByteBuf` / `Blob<32>` become lists of naturals ordered lexicographically,
  matching the byte-lexicographic ordering of `ic_stable_structures` keys;
* each `StableBTreeMap` becomes an association list with strictly ascending
  keys (`KV` below); the flat triple-keyed `FILE_METADATA` map is grouped by
  its `(owner, collection_name)` prefix — lexicographic order on triples keeps
  each prefix's entries contiguous and ascending in the file key, which is
  exactly the slice that the `range(..).take_while(..)` iteration at
  lib.rs:275-278 consumes;
* `ic_cdk::api::time()` and `ic_cdk::api::msg_caller()` become explicit
  `now` / `caller` arguments;
* the `ic_vetkeys` `EncryptedMaps` container is not part of this repository's
  sources; its operations are modelled from the specification (§4.2 and §4.3)
  and are marked as such in their doc comments.
-/

/-- Caller identity (`candid::Principal`): an opaque, comparable token. -/
abbrev PrincipalT := Nat

/-- Raw byte strings (`ByteBuf`), bytes as naturals. -/
abbrev Bytes := List Nat

/-- A `Blob<32>` value: a byte string already checked to hold at most
32 bytes, compared lexicographically. -/
abbrev Blob32 := List Nat

/-- Rust `str::contains` helper: `leadMatch needle hay` holds when `needle`
occurs at the very start of `hay`. -/
def leadMatch : List Char → List Char → Bool
  | [], _ => true
  | _ :: _, [] => false
  | c :: cs, d :: ds => c = d && leadMatch cs ds

/-- Rust `str::contains` helper: `subMatch needle hay` holds when `needle`
occurs contiguously anywhere in `hay`. -/
def subMatch (needle : List Char) : List Char → Bool
  | [] => needle.isEmpty
  | c :: cs => leadMatch needle (c :: cs) || subMatch needle cs

/-- Rust `str::contains`: case-sensitive contiguous substring match. -/
def strContains (hay pat : String) : Bool := subMatch pat.data hay.data

/-- Rust `Option::zip`. -/
def optZip {α β : Type} : Option α → Option β → Option (α × β)
  | some a, some b => some (a, b)
  | _, _ => none

theorem optZip_isSome {α β : Type} (a : Option α) (b : Option β) :
    (optZip a b).isSome = (a.isSome && b.isSome) := by
  cases a <;> cases b <;> rfl

/-! ### Ordered association maps

Embedding of `ic_stable_structures::BTreeMap`: an association list whose keys
are strictly ascending. -/

namespace KV

variable {K V : Type} [LinearOrder K]

/-- Point lookup (`StableBTreeMap::get`). -/
def find (k : K) : List (K × V) → Option V
  | [] => none
  | (k', v) :: t => if k = k' then some v else find k t

/-- Order-preserving insert (`StableBTreeMap::insert`); replaces an existing
binding at the same key. -/
def insert (k : K) (v : V) : List (K × V) → List (K × V)
  | [] => [(k, v)]
  | (k', v') :: t =>
    if k < k' then (k, v) :: (k', v') :: t
    else if k = k' then (k, v) :: t
    else (k', v') :: insert k v t

/-- Key removal (`StableBTreeMap::remove`). -/
def erase (k : K) : List (K × V) → List (K × V)
  | [] => []
  | (k', v') :: t => if k = k' then t else (k', v') :: erase k t

/-- Keys strictly ascending: the shape invariant of every stable-map snapshot. -/
def Sorted (l : List (K × V)) : Prop := l.Pairwise (fun a b => a.1 < b.1)

instance decSorted (l : List (K × V)) : Decidable (Sorted l) :=
  decidable_of_iff (l.Pairwise fun a b => a.1 < b.1) (by rw [Sorted])

theorem find_insert_self (k : K) (v : V) (l : List (K × V)) :
    find k (insert k v l) = some v := by
  induction l with
  | nil => simp [insert, find]
  | cons hd t ih =>
    obtain ⟨k', v'⟩ := hd
    by_cases h1 : k < k'
    · simp [insert, h1, find]
    · by_cases h2 : k = k'
      · simp [insert, h1, h2, find]
      · simp [insert, h1, h2, find, ih]

theorem find_insert_ne (k k' : K) (v : V) (l : List (K × V)) (h : k' ≠ k) :
    find k' (insert k v l) = find k' l := by
  induction l with
  | nil => simp [insert, find, h]
  | cons hd t ih =>
    obtain ⟨k'', v''⟩ := hd
    by_cases h1 : k < k''
    · simp [insert, h1, find, h]
    · by_cases h2 : k = k''
      · subst h2; simp [insert, h1, find, h]
      · by_cases h3 : k' = k''
        · simp [insert, h1, h2, find, h3]
        · simp [insert, h1, h2, find, h3, ih]

theorem find_erase_ne (k k' : K) (l : List (K × V)) (h : k' ≠ k) :
    find k' (erase k l) = find k' l := by
  induction l with
  | nil => rfl
  | cons hd t ih =>
    obtain ⟨k'', v''⟩ := hd
    by_cases h1 : k = k''
    · subst h1; simp [erase, find, h]
    · by_cases h2 : k' = k''
      · simp [erase, h1, find, h2]
      · simp [erase, h1, find, h2, ih]

theorem find_eq_none_of_forall (k : K) (l : List (K × V))
    (h : ∀ p ∈ l, k ≠ p.1) : find k l = none := by
  induction l with
  | nil => rfl
  | cons hd t ih =>
    have hne := h hd (List.mem_cons_self hd t)
    simp only [find]
    rw [if_neg hne]
    exact ih fun p hp => h p (List.mem_cons_of_mem hd hp)

theorem find_erase_self (k : K) (l : List (K × V)) (hs : Sorted l) :
    find k (erase k l) = none := by
  induction l with
  | nil => rfl
  | cons hd t ih =>
    obtain ⟨k', v'⟩ := hd
    rw [Sorted, List.pairwise_cons] at hs
    by_cases h1 : k = k'
    · subst h1
      simp only [erase, if_pos rfl]
      exact find_eq_none_of_forall k t fun p hp => ne_of_lt (hs.1 p hp)
    · simp [erase, h1, find, ih hs.2]

theorem mem_insert {k : K} {v : V} {l : List (K × V)} {p : K × V}
    (h : p ∈ insert k v l) : p = (k, v) ∨ p ∈ l := by
  induction l with
  | nil => simpa [insert] using h
  | cons hd t ih =>
    obtain ⟨k', v'⟩ := hd
    by_cases h1 : k < k'
    · simpa [insert, h1] using h
    · by_cases h2 : k = k'
      · rw [insert] at h
        simp only [if_neg h1, if_pos h2] at h
        rcases List.mem_cons.mp h with h3 | h3
        · exact Or.inl h3
        · exact Or.inr (List.mem_cons_of_mem _ h3)
      · rw [insert] at h
        simp only [if_neg h1, if_neg h2] at h
        rcases List.mem_cons.mp h with h3 | h3
        · exact Or.inr (h3 ▸ List.mem_cons_self _ _)
        · rcases ih h3 with h4 | h4
          · exact Or.inl h4
          · exact Or.inr (List.mem_cons_of_mem _ h4)

theorem Sorted.insert {k : K} {v : V} {l : List (K × V)} (hs : Sorted l) :
    Sorted (KV.insert k v l) := by
  induction l with
  | nil => simp [KV.insert, Sorted]
  | cons hd t ih =>
    obtain ⟨k', v'⟩ := hd
    rw [Sorted, List.pairwise_cons] at hs
    by_cases h1 : k < k'
    · rw [KV.insert]
      simp only [if_pos h1]
      rw [Sorted, List.pairwise_cons]
      refine ⟨?_, List.pairwise_cons.mpr hs⟩
      intro p hp
      rcases List.mem_cons.mp hp with h2 | h2
      · exact h2 ▸ h1
      · exact lt_trans h1 (hs.1 p h2)
    · by_cases h2 : k = k'
      · subst h2
        rw [KV.insert, if_neg h1, if_pos rfl, Sorted, List.pairwise_cons]
        exact ⟨fun p hp => hs.1 p hp, hs.2⟩
      · rw [KV.insert]
        simp only [if_neg h1, if_neg h2]
        rw [Sorted, List.pairwise_cons]
        refine ⟨?_, ih hs.2⟩
        intro p hp
        rcases mem_insert hp with h3 | h3
        · subst h3
          rcases lt_trichotomy k k' with h4 | h4 | h4
          · exact absurd h4 h1
          · exact absurd h4 h2
          · exact h4
        · exact hs.1 p h3

theorem erase_sublist (k : K) (l : List (K × V)) : (erase k l).Sublist l := by
  induction l with
  | nil => simp [erase]
  | cons hd t ih =>
    obtain ⟨k', v'⟩ := hd
    by_cases h1 : k = k'
    · simp only [erase, if_pos h1]
      exact List.sublist_cons_self (k', v') t
    · simp only [erase, if_neg h1]
      exact List.Sublist.cons₂ (k', v') ih

theorem Sorted.erase {k : K} {l : List (K × V)} (hs : Sorted l) :
    Sorted (KV.erase k l) :=
  List.Pairwise.sublist (erase_sublist k l) hs

theorem erase_insert_of_find_none (k : K) (v : V) (l : List (K × V))
    (h : find k l = none) : erase k (insert k v l) = l := by
  induction l with
  | nil => simp [insert, erase]
  | cons hd t ih =>
    obtain ⟨k', v'⟩ := hd
    rw [find] at h
    by_cases h2 : k = k'
    · simp [h2] at h
    · rw [if_neg h2] at h
      by_cases h1 : k < k'
      · simp [insert, h1, erase, h2]
      · simp [insert, h1, h2, erase, ih h]

theorem find_eq_some_of_mem {k : K} {v : V} {l : List (K × V)}
    (hs : Sorted l) (h : (k, v) ∈ l) : find k l = some v := by
  induction l with
  | nil => simp at h
  | cons hd t ih =>
    obtain ⟨k', v'⟩ := hd
    rw [Sorted, List.pairwise_cons] at hs
    rcases List.mem_cons.mp h with h1 | h1
    · obtain ⟨hk, hv⟩ := Prod.mk.injEq .. ▸ h1
      simp [find, hk, hv]
    · have hlt : k' < k := hs.1 (k, v) h1
      rw [find, if_neg (ne_of_gt hlt)]
      exact ih hs.2 h1

end KV

/-! ### Data model (lib.rs 16–123) -/

/-- `User` record (lib.rs 17–23). -/
structure User where
  username : String
  principal : PrincipalT
  display_name : Option String
  created_at : Nat
deriving DecidableEq

/-- `User::new` (lib.rs 26–33); `now` stands for `ic_cdk::api::time()`. -/
def User.new (username : String) (principal : PrincipalT)
    (display_name : Option String) (now : Nat) : User :=
  { username := username, principal := principal,
    display_name := display_name, created_at := now }

/-- `FileMetadata` record (lib.rs 49–59). -/
structure FileMetadata where
  filename : String
  content_type : String
  file_size : Nat
  creation_date : Nat
  last_modification_date : Nat
  uploaded_by : PrincipalT
  tags : List String
  description : Option String
deriving DecidableEq

/-- `FileMetadata::new` (lib.rs 62–81): fresh record with creation and
modification dates both set to the call's timestamp. -/
def FileMetadata.new (filename content_type : String) (file_size : Nat)
    (caller : PrincipalT) (tags : List String) (description : Option String)
    (now : Nat) : FileMetadata :=
  { filename := filename, content_type := content_type, file_size := file_size,
    creation_date := now, last_modification_date := now,
    uploaded_by := caller, tags := tags, description := description }

/-- `FileMetadata::update` (lib.rs 83–99): keeps `creation_date`,
`uploaded_by`, `content_type` and `file_size`; refreshes the rest. -/
def FileMetadata.update (m : FileMetadata) (filename : String)
    (tags : List String) (description : Option String) (now : Nat) : FileMetadata :=
  { filename := filename, creation_date := m.creation_date,
    last_modification_date := now, uploaded_by := m.uploaded_by,
    content_type := m.content_type, file_size := m.file_size,
    tags := tags, description := description }

/-- Modelled from the spec: the `ic_vetkeys` `AccessRights` level,
a totally ordered enumeration `Read < ReadWrite < ReadWriteManage` (§3). -/
inductive AccessRights
  | Read
  | ReadWrite
  | ReadWriteManage
deriving DecidableEq

/-- Numeric rank of a rights level. -/
def AccessRights.toNat : AccessRights → Nat
  | .Read => 0
  | .ReadWrite => 1
  | .ReadWriteManage => 2

/-- Order on rights levels. -/
def AccessRights.le (a b : AccessRights) : Bool := a.toNat ≤ b.toNat

/-- A collection identifier: the pair `(owner, name)` (lib.rs 116–117). -/
abbrev Coll := PrincipalT × Blob32

/-- The persisted state of the canister (lib.rs 126–148):
* `users`: the `USERS` map, username → `User`, keyed by the username's
  characters and kept in ascending key order;
* `p2u`: the `PRINCIPAL_TO_USERNAME` map;
* `vals`: the encrypted value store held inside `EncryptedMaps`
  (modelled from the spec, §4.3), grouped per collection with each
  group ascending in the file key;
* `md`: the `FILE_METADATA` map, grouped the same way;
* `grants`: the `EncryptedMaps` grant set (modelled from the spec, §4.2). -/
structure State where
  users : List (List Char × User)
  p2u : PrincipalT → Option String
  vals : Coll → List (Blob32 × Bytes)
  md : Coll → List (Blob32 × FileMetadata)
  grants : Coll → PrincipalT → Option AccessRights

/-- The state right after canister installation: every map is empty. -/
def initState : State :=
  { users := [], p2u := fun _ => none, vals := fun _ => [],
    md := fun _ => [], grants := fun _ _ => none }

/-! ### EncryptedMaps operations, modelled from the spec (§4.2–§4.3) -/

/-- Modelled from the spec: §4.2 `authorize` — the collection owner always
passes; otherwise the caller's grant must exist and reach the required
level. (`EncryptedMaps` internal access check; not in this repository's
sources.) -/
def authorized (s : State) (caller : PrincipalT) (c : Coll)
    (req : AccessRights) : Bool :=
  caller = c.1 ||
    (match s.grants c caller with
     | some r => req.le r
     | none => false)

/-- Modelled from the spec: §4.3 `put` (`EncryptedMaps::insert_encrypted_value`,
not in this repository's sources) — requires at least `ReadWrite`;
authorization precedes any write; replaces the blob and returns the old one. -/
def insertEncryptedValue (caller : PrincipalT) (c : Coll) (key : Blob32)
    (value : Bytes) (s : State) : Except String (Option Bytes) × State :=
  if authorized s caller c .ReadWrite then
    (.ok (KV.find key (s.vals c)),
     { s with vals := fun c' => if c' = c then KV.insert key value (s.vals c) else s.vals c' })
  else (.error "Denied", s)

/-- Modelled from the spec: §4.3 `remove` (`EncryptedMaps::remove_encrypted_value`,
not in this repository's sources) — requires at least `ReadWrite`; removes
the key and returns the previous ciphertext. -/
def removeEncryptedValue (caller : PrincipalT) (c : Coll) (key : Blob32)
    (s : State) : Except String (Option Bytes) × State :=
  if authorized s caller c .ReadWrite then
    (.ok (KV.find key (s.vals c)),
     { s with vals := fun c' => if c' = c then KV.erase key (s.vals c) else s.vals c' })
  else (.error "Denied", s)

/-- Modelled from the spec: §4.3 `get_all` (`EncryptedMaps::get_encrypted_values_for_map`,
not in this repository's sources) — requires at least `Read`; returns the
collection's `(key, ciphertext)` entries in ascending key order. -/
def getEncryptedValuesForMap (caller : PrincipalT) (c : Coll) (s : State) :
    Except String (List (Blob32 × Bytes)) :=
  if authorized s caller c .Read then .ok (s.vals c) else .error "Denied"

/-- Modelled from the spec: §4.2 `grant` (`EncryptedMaps::set_user_rights`,
not in this repository's sources) — the caller must be the owner or hold
`ReadWriteManage`; upserts the grant and returns the prior level. -/
def setUserRights (caller : PrincipalT) (c : Coll) (grantee : PrincipalT)
    (r : AccessRights) (s : State) : Except String (Option AccessRights) × State :=
  if caller = c.1 ∨ s.grants c caller = some .ReadWriteManage then
    (.ok (s.grants c grantee),
     { s with grants := fun c' p => if c' = c ∧ p = grantee then some r else s.grants c' p })
  else (.error "Denied", s)

/-- Modelled from the spec: §4.2 `revoke` (`EncryptedMaps::remove_user`,
not in this repository's sources) — same authorization rule as `grant`;
removes the grant and returns the removed level. -/
def removeUser (caller : PrincipalT) (c : Coll) (grantee : PrincipalT)
    (s : State) : Except String (Option AccessRights) × State :=
  if caller = c.1 ∨ s.grants c caller = some .ReadWriteManage then
    (.ok (s.grants c grantee),
     { s with grants := fun c' p => if c' = c ∧ p = grantee then none else s.grants c' p })
  else (.error "Denied", s)

/-! ### Canister entry points (lib.rs 170–415) -/

/-- `bytebuf_to_blob` (lib.rs 450–452): fallible bounded conversion. -/
def bytebuf_to_blob (buf : Bytes) : Except String Blob32 :=
  if buf.length ≤ 32 then .ok buf else .error "too large input"

/-- `register_user` (lib.rs 170–196); `caller` is `msg_caller()`, `now` is
`time()`. Checks the username map, then the reverse map, then inserts into
both. -/
def register_user (caller : PrincipalT) (now : Nat) (username : String)
    (display_name : Option String) (s : State) : Except String User × State :=
  if (KV.find username.data s.users).isSome then
    (.error "Username already exists", s)
  else if (s.p2u caller).isSome then
    (.error "User already registered with different username", s)
  else
    (.ok (User.new username caller display_name now),
     { s with
       users := KV.insert username.data (User.new username caller display_name now) s.users,
       p2u := fun p => if p = caller then some username else s.p2u p })

/-- `get_user_by_username` (lib.rs 199–201). -/
def get_user_by_username (username : String) (s : State) : Option User :=
  KV.find username.data s.users

/-- The filter predicate of `search_users` (lib.rs 218–221): the username
key or the display name contains the query. -/
def userMatches (q : String) (p : List Char × User) : Bool :=
  subMatch q.data p.1 ||
    (match p.2.display_name with
     | some name => strContains name q
     | none => false)

/-- `search_users` (lib.rs 213–226): iterate the username map in ascending
key order, keep the matching entries, take the first 10. -/
def search_users (q : String) (s : State) : List User :=
  (((s.users.filter (userMatches q)).map fun p => p.2).take 10)

/-- Positional pairing of the metadata range with the value sequence
(lib.rs 280–290). Rust `zip` stops at the shorter sequence; `debug_assert_eq!`
compares the two keys at a position only when `dbg` (debug assertions) is
enabled, and a failure traps (modelled as `none`). The produced triple
carries the metadata-side key together with the value-side ciphertext. -/
def zipAsserting (dbg : Bool) :
    List (Blob32 × FileMetadata) → List (Blob32 × Bytes) →
    Option (List (Blob32 × Bytes × FileMetadata))
  | [], _ => some []
  | _ :: _, [] => some []
  | (kl, m) :: ms, (kr, c) :: vs =>
    if dbg ∧ kl ≠ kr then none
    else (zipAsserting dbg ms vs).map fun rest => (kl, c, m) :: rest

/-- `get_files_in_collection_with_metadata` (lib.rs 260–293). The outer
`none` models a trap (`debug_assert_eq!` failure); `some (.error e)` the
decodable error; `some (.ok l)` the returned listing. -/
def get_files_in_collection_with_metadata (dbg : Bool)
    (caller collection_owner : PrincipalT) (collection_name : Bytes)
    (s : State) : Option (Except String (List (Blob32 × Bytes × FileMetadata))) :=
  match bytebuf_to_blob collection_name with
  | .error e => some (.error e)
  | .ok name =>
    match getEncryptedValuesForMap caller (collection_owner, name) s with
    | .error e => some (.error e)
    | .ok map_values =>
      match zipAsserting dbg (s.md (collection_owner, name)) map_values with
      | none => none
      | some l => some (.ok l)

/-- `upload_file_to_collection` (lib.rs 308–341): convert both byte keys,
insert the ciphertext through `EncryptedMaps`, then write the metadata
record (carry-over update if one exists, fresh otherwise); the returned
previous pair zips the two stores' prior values. -/
def upload_file_to_collection (caller : PrincipalT) (now : Nat)
    (collection_owner : PrincipalT) (collection_name file_id : Bytes)
    (encrypted_file_data : Bytes) (filename content_type : String)
    (file_size : Nat) (tags : List String) (description : Option String)
    (s : State) : Except String (Option (Bytes × FileMetadata)) × State :=
  match bytebuf_to_blob collection_name with
  | .error e => (.error e, s)
  | .ok name =>
    match bytebuf_to_blob file_id with
    | .error e => (.error e, s)
    | .ok file_key =>
      match insertEncryptedValue caller (collection_owner, name) file_key encrypted_file_data s with
      | (.error e, s') => (.error e, s')
      | (.ok opt_prev_value, s') =>
        (.ok (optZip opt_prev_value (KV.find file_key (s'.md (collection_owner, name)))),
         { s' with
           md := fun c' =>
             if c' = (collection_owner, name) then
               KV.insert file_key
                 (match KV.find file_key (s'.md (collection_owner, name)) with
                  | some m => m.update filename tags description now
                  | none => FileMetadata.new filename content_type file_size caller tags description now)
                 (s'.md (collection_owner, name))
             else s'.md c' })

/-- `remove_file_from_collection` (lib.rs 343–365): convert both byte keys,
remove the ciphertext through `EncryptedMaps`, then remove the metadata
record; the returned previous pair zips the two stores' prior values. -/
def remove_file_from_collection (caller : PrincipalT)
    (collection_owner : PrincipalT) (collection_name file_id : Bytes)
    (s : State) : Except String (Option (Bytes × FileMetadata)) × State :=
  match bytebuf_to_blob collection_name with
  | .error e => (.error e, s)
  | .ok name =>
    match bytebuf_to_blob file_id with
    | .error e => (.error e, s)
    | .ok file_key =>
      match removeEncryptedValue caller (collection_owner, name) file_key s with
      | (.error e, s') => (.error e, s')
      | (.ok opt_prev_value, s') =>
        (.ok (optZip opt_prev_value (KV.find file_key (s'.md (collection_owner, name)))),
         { s' with
           md := fun c' =>
             if c' = (collection_owner, name) then
               KV.erase file_key (s'.md (collection_owner, name))
             else s'.md c' })

/-- `share_collection_with_user` (lib.rs 368–392): resolve the username,
then grant on the collection `(caller, collection_name)` — the caller is
always the owner of the shared collection. -/
def share_collection_with_user (caller : PrincipalT) (collection_name : Bytes)
    (username : String) (access_rights : AccessRights) (s : State) :
    Except String (Option AccessRights) × State :=
  match KV.find username.data s.users with
  | none => (.error "User not found", s)
  | some user =>
    match bytebuf_to_blob collection_name with
    | .error e => (.error e, s)
    | .ok name => setUserRights caller (caller, name) user.principal access_rights s

/-- `remove_user_from_collection` (lib.rs 394–415): resolve the username,
then revoke on the collection `(caller, collection_name)`. -/
def remove_user_from_collection (caller : PrincipalT) (collection_name : Bytes)
    (username : String) (s : State) : Except String (Option AccessRights) × State :=
  match KV.find username.data s.users with
  | none => (.error "User not found", s)
  | some user =>
    match bytebuf_to_blob collection_name with
    | .error e => (.error e, s)
    | .ok name => removeUser caller (caller, name) user.principal s

/-! ### Reachability: states produced by sequences of update calls -/

/-- One state-mutating canister call (query methods mutate nothing). -/
inductive Step : State → State → Prop
  | register (caller : PrincipalT) (now : Nat) (username : String)
      (display_name : Option String) (s : State) :
      Step s (register_user caller now username display_name s).2
  | upload (caller : PrincipalT) (now : Nat) (owner : PrincipalT)
      (cname fid data : Bytes) (filename ctype : String) (fsize : Nat)
      (tags : List String) (descr : Option String) (s : State) :
      Step s (upload_file_to_collection caller now owner cname fid data filename ctype fsize tags descr s).2
  | remove (caller owner : PrincipalT) (cname fid : Bytes) (s : State) :
      Step s (remove_file_from_collection caller owner cname fid s).2
  | share (caller : PrincipalT) (cname : Bytes) (username : String)
      (r : AccessRights) (s : State) :
      Step s (share_collection_with_user caller cname username r s).2
  | unshare (caller : PrincipalT) (cname : Bytes) (username : String) (s : State) :
      Step s (remove_user_from_collection caller cname username s).2

/-- States reachable from installation by update calls. -/
inductive Reachable : State → Prop
  | init : Reachable initState
  | step {s s' : State} : Reachable s → Step s s' → Reachable s'

/-! ### Characterizations of the mutating operations -/

theorem upload_ok_eq (caller now owner : PrincipalT) (cname fid data : Bytes)
    (filename ctype : String) (fsize : Nat) (tags : List String)
    (descr : Option String) (s : State) (name key : Blob32)
    (hn : bytebuf_to_blob cname = .ok name) (hk : bytebuf_to_blob fid = .ok key)
    (hauth : authorized s caller (owner, name) .ReadWrite = true) :
    upload_file_to_collection caller now owner cname fid data filename ctype fsize tags descr s =
      (.ok (optZip (KV.find key (s.vals (owner, name))) (KV.find key (s.md (owner, name)))),
       { s with
         vals := fun c' => if c' = (owner, name) then KV.insert key data (s.vals (owner, name)) else s.vals c',
         md := fun c' =>
           if c' = (owner, name) then
             KV.insert key
               (match KV.find key (s.md (owner, name)) with
                | some m => m.update filename tags descr now
                | none => FileMetadata.new filename ctype fsize caller tags descr now)
               (s.md (owner, name))
           else s.md c' }) := by
  simp only [upload_file_to_collection, hn, hk, insertEncryptedValue, hauth, if_true]

theorem upload_denied_eq (caller now owner : PrincipalT) (cname fid data : Bytes)
    (filename ctype : String) (fsize : Nat) (tags : List String)
    (descr : Option String) (s : State) (name key : Blob32)
    (hn : bytebuf_to_blob cname = .ok name) (hk : bytebuf_to_blob fid = .ok key)
    (hauth : authorized s caller (owner, name) .ReadWrite = false) :
    upload_file_to_collection caller now owner cname fid data filename ctype fsize tags descr s =
      (.error "Denied", s) := by
  simp only [upload_file_to_collection, hn, hk, insertEncryptedValue, hauth,
    Bool.false_eq_true, if_false]

theorem remove_ok_eq (caller owner : PrincipalT) (cname fid : Bytes)
    (s : State) (name key : Blob32)
    (hn : bytebuf_to_blob cname = .ok name) (hk : bytebuf_to_blob fid = .ok key)
    (hauth : authorized s caller (owner, name) .ReadWrite = true) :
    remove_file_from_collection caller owner cname fid s =
      (.ok (optZip (KV.find key (s.vals (owner, name))) (KV.find key (s.md (owner, name)))),
       { s with
         vals := fun c' => if c' = (owner, name) then KV.erase key (s.vals (owner, name)) else s.vals c',
         md := fun c' => if c' = (owner, name) then KV.erase key (s.md (owner, name)) else s.md c' }) := by
  simp only [remove_file_from_collection, hn, hk, removeEncryptedValue, hauth, if_true]

theorem remove_denied_eq (caller owner : PrincipalT) (cname fid : Bytes)
    (s : State) (name key : Blob32)
    (hn : bytebuf_to_blob cname = .ok name) (hk : bytebuf_to_blob fid = .ok key)
    (hauth : authorized s caller (owner, name) .ReadWrite = false) :
    remove_file_from_collection caller owner cname fid s = (.error "Denied", s) := by
  simp only [remove_file_from_collection, hn, hk, removeEncryptedValue, hauth,
    Bool.false_eq_true, if_false]


/-! ### The maintained state invariant -/

/-- Invariant of every reachable state: all map snapshots are ascending,
the username map is coherent with its values and with the reverse map, and
the metadata index and value store agree on key presence. -/
structure StInv (s : State) : Prop where
  vals_sorted : ∀ c, KV.Sorted (s.vals c)
  md_sorted : ∀ c, KV.Sorted (s.md c)
  users_sorted : KV.Sorted s.users
  users_key : ∀ p ∈ s.users, p.2.username.data = p.1
  users_p2u : ∀ p ∈ s.users, s.p2u p.2.principal = some p.2.username
  sync : ∀ c k, (KV.find k (s.md c)).isSome = (KV.find k (s.vals c)).isSome

theorem inv_init : StInv initState := by
  constructor <;> simp [initState, KV.Sorted, KV.find]

theorem inv_register (caller : PrincipalT) (now : Nat) (username : String)
    (dn : Option String) (s : State) (h : StInv s) :
    StInv (register_user caller now username dn s).2 := by
  rcases Bool.eq_false_or_eq_true (KV.find username.data s.users).isSome with h1 | h1
  · simp only [register_user, if_pos h1]
    exact h
  · have h1' : ¬((KV.find username.data s.users).isSome = true) := by simp [h1]
    rcases Bool.eq_false_or_eq_true (s.p2u caller).isSome with h2 | h2
    · simp only [register_user, if_neg h1', if_pos h2]
      exact h
    · have h2' : ¬((s.p2u caller).isSome = true) := by simp [h2]
      simp only [register_user, if_neg h1', if_neg h2']
      refine ⟨h.vals_sorted, h.md_sorted, h.users_sorted.insert, ?_, ?_, h.sync⟩
      · intro p hp
        rcases KV.mem_insert hp with h3 | h3
        · subst h3; rfl
        · exact h.users_key p h3
      · intro p hp
        rcases KV.mem_insert hp with h3 | h3
        · subst h3; simp [User.new]
        · have hne : p.2.principal ≠ caller := by
            intro he
            have h4 := h.users_p2u p h3
            rw [he] at h4
            rw [h4] at h2
            simp at h2
          simp only [if_neg hne]
          exact h.users_p2u p h3

theorem inv_upload (caller : PrincipalT) (now : Nat) (owner : PrincipalT)
    (cname fid data : Bytes) (filename ctype : String) (fsize : Nat)
    (tags : List String) (descr : Option String) (s : State) (h : StInv s) :
    StInv (upload_file_to_collection caller now owner cname fid data filename ctype fsize tags descr s).2 := by
  cases hn : bytebuf_to_blob cname with
  | error e => simp only [upload_file_to_collection, hn]; exact h
  | ok name =>
    cases hk : bytebuf_to_blob fid with
    | error e => simp only [upload_file_to_collection, hn, hk]; exact h
    | ok key =>
      rcases Bool.eq_false_or_eq_true (authorized s caller (owner, name) .ReadWrite) with ha | ha
      · rw [upload_ok_eq caller now owner cname fid data filename ctype fsize tags descr s name key hn hk ha]
        refine ⟨?_, ?_, h.users_sorted, h.users_key, h.users_p2u, ?_⟩
        · intro c
          by_cases hc : c = (owner, name)
          · simp only [if_pos hc]
            exact (h.vals_sorted (owner, name)).insert
          · simp only [if_neg hc]
            exact h.vals_sorted c
        · intro c
          by_cases hc : c = (owner, name)
          · simp only [if_pos hc]
            exact (h.md_sorted (owner, name)).insert
          · simp only [if_neg hc]
            exact h.md_sorted c
        · intro c k
          by_cases hc : c = (owner, name)
          · simp only [if_pos hc]
            by_cases hkk : k = key
            · subst hkk
              rw [KV.find_insert_self, KV.find_insert_self]
              rfl
            · rw [KV.find_insert_ne key k _ _ hkk, KV.find_insert_ne key k _ _ hkk]
              exact h.sync (owner, name) k
          · simp only [if_neg hc]
            exact h.sync c k
      · rw [upload_denied_eq caller now owner cname fid data filename ctype fsize tags descr s name key hn hk ha]
        exact h

theorem inv_remove (caller owner : PrincipalT) (cname fid : Bytes) (s : State)
    (h : StInv s) : StInv (remove_file_from_collection caller owner cname fid s).2 := by
  cases hn : bytebuf_to_blob cname with
  | error e => simp only [remove_file_from_collection, hn]; exact h
  | ok name =>
    cases hk : bytebuf_to_blob fid with
    | error e => simp only [remove_file_from_collection, hn, hk]; exact h
    | ok key =>
      rcases Bool.eq_false_or_eq_true (authorized s caller (owner, name) .ReadWrite) with ha | ha
      · rw [remove_ok_eq caller owner cname fid s name key hn hk ha]
        refine ⟨?_, ?_, h.users_sorted, h.users_key, h.users_p2u, ?_⟩
        · intro c
          by_cases hc : c = (owner, name)
          · simp only [if_pos hc]
            exact (h.vals_sorted (owner, name)).erase
          · simp only [if_neg hc]
            exact h.vals_sorted c
        · intro c
          by_cases hc : c = (owner, name)
          · simp only [if_pos hc]
            exact (h.md_sorted (owner, name)).erase
          · simp only [if_neg hc]
            exact h.md_sorted c
        · intro c k
          by_cases hc : c = (owner, name)
          · simp only [if_pos hc]
            by_cases hkk : k = key
            · subst hkk
              rw [KV.find_erase_self k _ (h.md_sorted (owner, name)),
                KV.find_erase_self k _ (h.vals_sorted (owner, name))]
              rfl
            · rw [KV.find_erase_ne key k _ hkk, KV.find_erase_ne key k _ hkk]
              exact h.sync (owner, name) k
          · simp only [if_neg hc]
            exact h.sync c k
      · rw [remove_denied_eq caller owner cname fid s name key hn hk ha]
        exact h

theorem inv_share (caller : PrincipalT) (cname : Bytes) (username : String)
    (r : AccessRights) (s : State) (h : StInv s) :
    StInv (share_collection_with_user caller cname username r s).2 := by
  cases hu : KV.find username.data s.users with
  | none => simp only [share_collection_with_user, hu]; exact h
  | some user =>
    cases hn : bytebuf_to_blob cname with
    | error e => simp only [share_collection_with_user, hu, hn]; exact h
    | ok name =>
      simp only [share_collection_with_user, hu, hn, setUserRights]
      split
      · exact ⟨h.vals_sorted, h.md_sorted, h.users_sorted, h.users_key, h.users_p2u, h.sync⟩
      · exact h

theorem inv_unshare (caller : PrincipalT) (cname : Bytes) (username : String)
    (s : State) (h : StInv s) :
    StInv (remove_user_from_collection caller cname username s).2 := by
  cases hu : KV.find username.data s.users with
  | none => simp only [remove_user_from_collection, hu]; exact h
  | some user =>
    cases hn : bytebuf_to_blob cname with
    | error e => simp only [remove_user_from_collection, hu, hn]; exact h
    | ok name =>
      simp only [remove_user_from_collection, hu, hn, removeUser]
      split
      · exact ⟨h.vals_sorted, h.md_sorted, h.users_sorted, h.users_key, h.users_p2u, h.sync⟩
      · exact h

theorem inv_reachable {s : State} (h : Reachable s) : StInv s := by
  induction h with
  | init => exact inv_init
  | step _ hstep ih =>
    cases hstep with
    | register caller now username dn =>
      exact inv_register caller now username dn _ ih
    | upload caller now owner cname fid data filename ctype fsize tags descr =>
      exact inv_upload caller now owner cname fid data filename ctype fsize tags descr _ ih
    | remove caller owner cname fid =>
      exact inv_remove caller owner cname fid _ ih
    | share caller cname username r =>
      exact inv_share caller cname username r _ ih
    | unshare caller cname username =>
      exact inv_unshare caller cname username _ ih

/-! ### Claim theorems -/

/-- C1: for every reachable state and composite key, the Metadata Index
holds a record exactly when the Encrypted Value Store holds a ciphertext at
that key, and every further operation preserves the equivalence. -/
theorem claim_C1 (s : State) (h : Reachable s) :
    (∀ c k, ((KV.find k (s.md c)).isSome ↔ (KV.find k (s.vals c)).isSome))
    ∧ ∀ s', Step s s' → ∀ c k,
        ((KV.find k (s'.md c)).isSome ↔ (KV.find k (s'.vals c)).isSome) := by
  refine ⟨fun c k => ?_, fun s' hs c k => ?_⟩
  · rw [(inv_reachable h).sync c k]
  · rw [(inv_reachable (Reachable.step h hs)).sync c k]

/-- Witness for C1 at the concrete reachable state holding one uploaded file. -/
theorem claim_C1_witness :
    (KV.find ([0] : Blob32)
        (((upload_file_to_collection 1 5 1 [] [0] [7] "a" "t" 1 [] none initState).2).md (1, []))).isSome
      ↔ (KV.find ([0] : Blob32)
        (((upload_file_to_collection 1 5 1 [] [0] [7] "a" "t" 1 [] none initState).2).vals (1, []))).isSome :=
  (claim_C1 _ (Reachable.step Reachable.init
    (Step.upload 1 5 1 [] [0] [7] "a" "t" 1 [] none initState))).1 (1, []) [0]

/-- C2: a successful re-upload to a key whose metadata record exists keeps
`creation_date`, `uploaded_by`, `content_type` and `file_size` from the old
record (the newly supplied `content_type`/`file_size` arguments are
ignored) while `filename`, `tags`, `description` take the new arguments and
`last_modification_date` becomes the call's timestamp. -/
theorem claim_C2 (caller : PrincipalT) (now : Nat) (owner : PrincipalT)
    (cname fid data : Bytes) (filename ctype : String) (fsize : Nat)
    (tags : List String) (descr : Option String) (s : State) (name key : Blob32)
    (old : FileMetadata)
    (hn : bytebuf_to_blob cname = .ok name) (hk : bytebuf_to_blob fid = .ok key)
    (hold : KV.find key (s.md (owner, name)) = some old)
    (hok : (upload_file_to_collection caller now owner cname fid data filename ctype fsize tags descr s).1.isOk = true) :
    KV.find key ((upload_file_to_collection caller now owner cname fid data filename ctype fsize tags descr s).2.md (owner, name)) =
      some { filename := filename, content_type := old.content_type,
             file_size := old.file_size, creation_date := old.creation_date,
             last_modification_date := now, uploaded_by := old.uploaded_by,
             tags := tags, description := descr } := by
  rcases Bool.eq_false_or_eq_true (authorized s caller (owner, name) .ReadWrite) with ha | ha
  · rw [upload_ok_eq caller now owner cname fid data filename ctype fsize tags descr s name key hn hk ha]
    have hc : ((owner, name) : Coll) = (owner, name) := rfl
    simp only [if_pos hc, eq_self_iff_true, if_true, hold, KV.find_insert_self, FileMetadata.update]
  · rw [upload_denied_eq caller now owner cname fid data filename ctype fsize tags descr s name key hn hk ha] at hok
    simp [Except.isOk, Except.toBool] at hok

/-- Witness for C2: re-upload over a freshly uploaded key on a concrete
state; date, uploader, content type and size carry over. -/
theorem claim_C2_witness :
    KV.find ([0] : Blob32)
      (((upload_file_to_collection 1 6 1 [] [0] [8] "b" "t2" 2 ["x"] none
          (upload_file_to_collection 1 5 1 [] [0] [7] "a" "t" 1 [] none initState).2).2).md (1, []))
      = some { filename := "b", content_type := "t", file_size := 1,
               creation_date := 5, last_modification_date := 6,
               uploaded_by := 1, tags := ["x"], description := none } :=
  claim_C2 1 6 1 [] [0] [8] "b" "t2" 2 ["x"] none _ [] [0]
    (FileMetadata.new "a" "t" 1 1 [] none 5) rfl rfl (by decide) (by decide)

/-- C10: a successful upload at a key with no existing metadata record
stores a fresh record whose creation and modification dates are both the
call's timestamp, whose uploader is the caller, and whose other fields are
the supplied arguments. -/
theorem claim_C10 (caller : PrincipalT) (now : Nat) (owner : PrincipalT)
    (cname fid data : Bytes) (filename ctype : String) (fsize : Nat)
    (tags : List String) (descr : Option String) (s : State) (name key : Blob32)
    (hn : bytebuf_to_blob cname = .ok name) (hk : bytebuf_to_blob fid = .ok key)
    (hfresh : KV.find key (s.md (owner, name)) = none)
    (hok : (upload_file_to_collection caller now owner cname fid data filename ctype fsize tags descr s).1.isOk = true) :
    KV.find key ((upload_file_to_collection caller now owner cname fid data filename ctype fsize tags descr s).2.md (owner, name)) =
      some { filename := filename, content_type := ctype, file_size := fsize,
             creation_date := now, last_modification_date := now,
             uploaded_by := caller, tags := tags, description := descr } := by
  rcases Bool.eq_false_or_eq_true (authorized s caller (owner, name) .ReadWrite) with ha | ha
  · rw [upload_ok_eq caller now owner cname fid data filename ctype fsize tags descr s name key hn hk ha]
    have hc : ((owner, name) : Coll) = (owner, name) := rfl
    simp only [if_pos hc, eq_self_iff_true, if_true, hfresh, KV.find_insert_self, FileMetadata.new]
  · rw [upload_denied_eq caller now owner cname fid data filename ctype fsize tags descr s name key hn hk ha] at hok
    simp [Except.isOk, Except.toBool] at hok

/-- Witness for C10: first upload of a key on the empty state stores the
freshly constructed record. -/
theorem claim_C10_witness :
    KV.find ([0] : Blob32)
      (((upload_file_to_collection 1 5 1 [] [0] [7] "a" "t" 1 ["g"] (some "d") initState).2).md (1, []))
      = some { filename := "a", content_type := "t", file_size := 1,
               creation_date := 5, last_modification_date := 5,
               uploaded_by := 1, tags := ["g"], description := some "d" } :=
  claim_C10 1 5 1 [] [0] [7] "a" "t" 1 ["g"] (some "d") initState [] [0]
    rfl rfl rfl (by decide)

/-- C6: `register_user` fails with the duplicate-username error exactly when
the username is taken, fails with the identity-already-registered error
exactly when the username is free but the caller already appears in the
reverse map, and succeeds otherwise; in every reachable state no identity
is associated with two usernames. -/
theorem claim_C6 (s : State) (h : Reachable s) (caller : PrincipalT) (now : Nat)
    (username : String) (dn : Option String) :
    ((register_user caller now username dn s).1 = .error "Username already exists"
      ↔ (KV.find username.data s.users).isSome = true)
    ∧ ((register_user caller now username dn s).1 = .error "User already registered with different username"
      ↔ (KV.find username.data s.users).isSome = false ∧ (s.p2u caller).isSome = true)
    ∧ ((register_user caller now username dn s).1.isOk = true
      ↔ (KV.find username.data s.users).isSome = false ∧ (s.p2u caller).isSome = false)
    ∧ (∀ p ∈ s.users, ∀ q ∈ s.users, p.2.principal = q.2.principal → p.1 = q.1) := by
  have hinv := inv_reachable h
  have hinj : ∀ p ∈ s.users, ∀ q ∈ s.users, p.2.principal = q.2.principal → p.1 = q.1 := by
    intro p hp q hq hpq
    have h1 := hinv.users_p2u p hp
    have h2 := hinv.users_p2u q hq
    rw [hpq] at h1
    have h4 := Option.some.inj (h1.symm.trans h2)
    rw [← hinv.users_key p hp, ← hinv.users_key q hq, h4]
  have hAB : ("Username already exists" : String) ≠ "User already registered with different username" := by
    decide
  rcases Bool.eq_false_or_eq_true (KV.find username.data s.users).isSome with h1 | h1
  · refine ⟨?_, ?_, ?_, hinj⟩ <;> simp only [register_user, if_pos h1]
    · simp [h1]
    · simp [h1, hAB]
    · simp [h1, Except.isOk, Except.toBool]
  · have h1' : ¬((KV.find username.data s.users).isSome = true) := by simp [h1]
    rcases Bool.eq_false_or_eq_true (s.p2u caller).isSome with h2 | h2
    · refine ⟨?_, ?_, ?_, hinj⟩ <;> simp only [register_user, if_neg h1', if_pos h2]
      · simp [h1, Ne.symm hAB]
      · simp [h1, h2]
      · simp [h2, Except.isOk, Except.toBool]
    · have h2' : ¬((s.p2u caller).isSome = true) := by simp [h2]
      refine ⟨?_, ?_, ?_, hinj⟩ <;> simp only [register_user, if_neg h1', if_neg h2']
      · simp [h1]
      · simp [h2]
      · simp [h1, h2, Except.isOk, Except.toBool]

/-- Witness for C6: on the concrete reachable state where principal 1 owns
`alice`, a second registration of `alice` is rejected as a duplicate. -/
theorem claim_C6_witness :
    (register_user 2 11 "alice" none (register_user 1 10 "alice" none initState).2).1
      = .error "Username already exists" :=
  (claim_C6 _ (Reachable.step Reachable.init (Step.register 1 10 "alice" none initState))
    2 11 "alice" none).1.mpr (by decide)

/-- C9: for an authorized upload and an authorized removal with valid keys,
the returned previous pair is present exactly when both stores previously
held the key, and the write (respectively removal) is performed on both
stores regardless of whether the other store held a record. -/
theorem claim_C9 (caller : PrincipalT) (now : Nat) (owner : PrincipalT)
    (cname fid data : Bytes) (filename ctype : String) (fsize : Nat)
    (tags : List String) (descr : Option String) (s : State) (name key : Blob32)
    (hn : bytebuf_to_blob cname = .ok name) (hk : bytebuf_to_blob fid = .ok key)
    (hauth : authorized s caller (owner, name) .ReadWrite = true)
    (hs1 : KV.Sorted (s.vals (owner, name))) (hs2 : KV.Sorted (s.md (owner, name))) :
    ((upload_file_to_collection caller now owner cname fid data filename ctype fsize tags descr s).1
        = .ok (optZip (KV.find key (s.vals (owner, name))) (KV.find key (s.md (owner, name)))))
    ∧ (optZip (KV.find key (s.vals (owner, name))) (KV.find key (s.md (owner, name)))).isSome
        = ((KV.find key (s.vals (owner, name))).isSome && (KV.find key (s.md (owner, name))).isSome)
    ∧ KV.find key ((upload_file_to_collection caller now owner cname fid data filename ctype fsize tags descr s).2.vals (owner, name)) = some data
    ∧ (KV.find key ((upload_file_to_collection caller now owner cname fid data filename ctype fsize tags descr s).2.md (owner, name))).isSome = true
    ∧ ((remove_file_from_collection caller owner cname fid s).1
        = .ok (optZip (KV.find key (s.vals (owner, name))) (KV.find key (s.md (owner, name)))))
    ∧ KV.find key ((remove_file_from_collection caller owner cname fid s).2.vals (owner, name)) = none
    ∧ KV.find key ((remove_file_from_collection caller owner cname fid s).2.md (owner, name)) = none := by
  rw [upload_ok_eq caller now owner cname fid data filename ctype fsize tags descr s name key hn hk hauth,
    remove_ok_eq caller owner cname fid s name key hn hk hauth]
  have hc : ((owner, name) : Coll) = (owner, name) := rfl
  refine ⟨rfl, optZip_isSome _ _, ?_, ?_, rfl, ?_, ?_⟩
  · simp only [if_pos hc, eq_self_iff_true, if_true, KV.find_insert_self]
  · simp only [if_pos hc, eq_self_iff_true, if_true, KV.find_insert_self, Option.isSome_some]
  · simp only [if_pos hc, eq_self_iff_true, if_true]
    exact KV.find_erase_self key _ hs1
  · simp only [if_pos hc, eq_self_iff_true, if_true]
    exact KV.find_erase_self key _ hs2

/-- Witness for C9 on a concrete state holding the key in both stores. -/
theorem claim_C9_witness :
    (remove_file_from_collection 1 1 [] [0]
        (upload_file_to_collection 1 5 1 [] [0] [7] "a" "t" 1 [] none initState).2).1
      = .ok (optZip
          (KV.find ([0] : Blob32)
            ((upload_file_to_collection 1 5 1 [] [0] [7] "a" "t" 1 [] none initState).2.vals (1, [])))
          (KV.find ([0] : Blob32)
            ((upload_file_to_collection 1 5 1 [] [0] [7] "a" "t" 1 [] none initState).2.md (1, [])))) :=
  (claim_C9 1 6 1 [] [0] [9] "b" "t" 1 [] none
    (upload_file_to_collection 1 5 1 [] [0] [7] "a" "t" 1 [] none initState).2 [] [0]
    rfl rfl (by decide) (by decide) (by decide)).2.2.2.2.1

/-- C5: uploading a fresh key with sufficient rights and immediately
removing it returns the uploaded ciphertext paired with the metadata
constructed from the uploaded fields, and restores both stores to their
state before the upload. -/
theorem claim_C5 (caller : PrincipalT) (now : Nat) (owner : PrincipalT)
    (cname fid data : Bytes) (filename ctype : String) (fsize : Nat)
    (tags : List String) (descr : Option String) (s : State) (name key : Blob32)
    (hn : bytebuf_to_blob cname = .ok name) (hk : bytebuf_to_blob fid = .ok key)
    (hauth : authorized s caller (owner, name) .ReadWrite = true)
    (hfv : KV.find key (s.vals (owner, name)) = none)
    (hfm : KV.find key (s.md (owner, name)) = none) :
    ((remove_file_from_collection caller owner cname fid
        (upload_file_to_collection caller now owner cname fid data filename ctype fsize tags descr s).2).1
      = .ok (some (data, FileMetadata.new filename ctype fsize caller tags descr now)))
    ∧ (remove_file_from_collection caller owner cname fid
        (upload_file_to_collection caller now owner cname fid data filename ctype fsize tags descr s).2).2.vals = s.vals
    ∧ (remove_file_from_collection caller owner cname fid
        (upload_file_to_collection caller now owner cname fid data filename ctype fsize tags descr s).2).2.md = s.md := by
  rw [upload_ok_eq caller now owner cname fid data filename ctype fsize tags descr s name key hn hk hauth]
  have hauth1 : authorized
      { s with
        vals := fun c' => if c' = (owner, name) then KV.insert key data (s.vals (owner, name)) else s.vals c',
        md := fun c' =>
          if c' = (owner, name) then
            KV.insert key
              (match KV.find key (s.md (owner, name)) with
               | some m => m.update filename tags descr now
               | none => FileMetadata.new filename ctype fsize caller tags descr now)
              (s.md (owner, name))
          else s.md c' }
      caller (owner, name) .ReadWrite = true := hauth
  rw [remove_ok_eq caller owner cname fid _ name key hn hk hauth1]
  have hc : ((owner, name) : Coll) = (owner, name) := rfl
  refine ⟨?_, ?_, ?_⟩
  · simp only [if_pos hc, eq_self_iff_true, if_true, hfm, KV.find_insert_self, optZip]
  · funext c'
    by_cases hcc : c' = (owner, name)
    · subst hcc
      simp only [if_pos hc, eq_self_iff_true, if_true]
      exact KV.erase_insert_of_find_none key data _ hfv
    · simp only [if_neg hcc]
  · funext c'
    by_cases hcc : c' = (owner, name)
    · subst hcc
      simp only [if_pos hc, eq_self_iff_true, if_true, hfm]
      exact KV.erase_insert_of_find_none key _ _ hfm
    · simp only [if_neg hcc]

/-- Witness for C5 on the empty state: upload then remove of key `[0]`. -/
theorem claim_C5_witness :
    ((remove_file_from_collection 1 1 [] [0]
        (upload_file_to_collection 1 5 1 [] [0] [7] "a" "t" 1 [] none initState).2).1
      = .ok (some ([7], FileMetadata.new "a" "t" 1 1 [] none 5)))
    ∧ (remove_file_from_collection 1 1 [] [0]
        (upload_file_to_collection 1 5 1 [] [0] [7] "a" "t" 1 [] none initState).2).2.vals = initState.vals
    ∧ (remove_file_from_collection 1 1 [] [0]
        (upload_file_to_collection 1 5 1 [] [0] [7] "a" "t" 1 [] none initState).2).2.md = initState.md :=
  claim_C5 1 5 1 [] [0] [7] "a" "t" 1 [] none initState [] [0] rfl rfl
    (by decide) rfl rfl

/-- C4: whenever `register_user`, `upload_file_to_collection`,
`remove_file_from_collection`, `share_collection_with_user` or
`remove_user_from_collection` returns an error, the state — all five
persisted maps — is exactly the state before the call. -/
theorem claim_C4 (s : State) (caller : PrincipalT) (now : Nat)
    (username filename ctype : String) (dn descr : Option String)
    (owner : PrincipalT) (cname fid data : Bytes) (fsize : Nat)
    (tags : List String) (r : AccessRights) :
    ((register_user caller now username dn s).1.isOk = false →
      (register_user caller now username dn s).2 = s)
    ∧ ((upload_file_to_collection caller now owner cname fid data filename ctype fsize tags descr s).1.isOk = false →
      (upload_file_to_collection caller now owner cname fid data filename ctype fsize tags descr s).2 = s)
    ∧ ((remove_file_from_collection caller owner cname fid s).1.isOk = false →
      (remove_file_from_collection caller owner cname fid s).2 = s)
    ∧ ((share_collection_with_user caller cname username r s).1.isOk = false →
      (share_collection_with_user caller cname username r s).2 = s)
    ∧ ((remove_user_from_collection caller cname username s).1.isOk = false →
      (remove_user_from_collection caller cname username s).2 = s) := by
  refine ⟨?_, ?_, ?_, ?_, ?_⟩
  · intro herr
    rcases Bool.eq_false_or_eq_true (KV.find username.data s.users).isSome with h1 | h1
    · simp only [register_user, if_pos h1]
    · have h1' : ¬((KV.find username.data s.users).isSome = true) := by simp [h1]
      rcases Bool.eq_false_or_eq_true (s.p2u caller).isSome with h2 | h2
      · simp only [register_user, if_neg h1', if_pos h2]
      · have h2' : ¬((s.p2u caller).isSome = true) := by simp [h2]
        simp only [register_user, if_neg h1', if_neg h2'] at herr
        simp [Except.isOk, Except.toBool] at herr
  · intro herr
    cases hn : bytebuf_to_blob cname with
    | error e => simp only [upload_file_to_collection, hn]
    | ok name =>
      cases hkk : bytebuf_to_blob fid with
      | error e => simp only [upload_file_to_collection, hn, hkk]
      | ok key =>
        rcases Bool.eq_false_or_eq_true (authorized s caller (owner, name) .ReadWrite) with ha | ha
        · rw [upload_ok_eq caller now owner cname fid data filename ctype fsize tags descr s name key hn hkk ha] at herr
          simp [Except.isOk, Except.toBool] at herr
        · rw [upload_denied_eq caller now owner cname fid data filename ctype fsize tags descr s name key hn hkk ha]
  · intro herr
    cases hn : bytebuf_to_blob cname with
    | error e => simp only [remove_file_from_collection, hn]
    | ok name =>
      cases hkk : bytebuf_to_blob fid with
      | error e => simp only [remove_file_from_collection, hn, hkk]
      | ok key =>
        rcases Bool.eq_false_or_eq_true (authorized s caller (owner, name) .ReadWrite) with ha | ha
        · rw [remove_ok_eq caller owner cname fid s name key hn hkk ha] at herr
          simp [Except.isOk, Except.toBool] at herr
        · rw [remove_denied_eq caller owner cname fid s name key hn hkk ha]
  · intro herr
    cases hu : KV.find username.data s.users with
    | none => simp only [share_collection_with_user, hu]
    | some user =>
      cases hn : bytebuf_to_blob cname with
      | error e => simp only [share_collection_with_user, hu, hn]
      | ok name =>
        simp only [share_collection_with_user, hu, hn, setUserRights] at herr ⊢
        split at herr
        · simp [Except.isOk, Except.toBool] at herr
        · split
          · simp_all
          · rfl
  · intro herr
    cases hu : KV.find username.data s.users with
    | none => simp only [remove_user_from_collection, hu]
    | some user =>
      cases hn : bytebuf_to_blob cname with
      | error e => simp only [remove_user_from_collection, hu, hn]
      | ok name =>
        simp only [remove_user_from_collection, hu, hn, removeUser] at herr ⊢
        split at herr
        · simp [Except.isOk, Except.toBool] at herr
        · split
          · simp_all
          · rfl

/-- Witness for C4: the failing duplicate registration leaves the state
intact. -/
theorem claim_C4_witness :
    (register_user 2 11 "alice" none (register_user 1 10 "alice" none initState).2).2
      = (register_user 1 10 "alice" none initState).2 :=
  (claim_C4 (register_user 1 10 "alice" none initState).2 2 11 "alice" "" "" none none
    0 [] [] [] 0 [] .Read).1 (by decide)

/-- C7: sharing and unsharing return the user-not-found error whenever the
username is absent, and otherwise act on the grant of the collection
`(caller, collection_name)` — the caller's own collection — for exactly the
resolved user's principal, leaving every other grant unchanged. -/
theorem claim_C7 (caller : PrincipalT) (cname : Bytes) (username : String)
    (r : AccessRights) (s : State) :
    (KV.find username.data s.users = none →
      (share_collection_with_user caller cname username r s).1 = .error "User not found"
      ∧ (remove_user_from_collection caller cname username s).1 = .error "User not found")
    ∧ (∀ user name, KV.find username.data s.users = some user →
        bytebuf_to_blob cname = .ok name →
        (share_collection_with_user caller cname username r s).1
            = .ok (s.grants (caller, name) user.principal)
        ∧ (share_collection_with_user caller cname username r s).2.grants (caller, name) user.principal = some r
        ∧ (∀ c p, ¬(c = (caller, name) ∧ p = user.principal) →
            (share_collection_with_user caller cname username r s).2.grants c p = s.grants c p)
        ∧ (remove_user_from_collection caller cname username s).1
            = .ok (s.grants (caller, name) user.principal)
        ∧ (remove_user_from_collection caller cname username s).2.grants (caller, name) user.principal = none
        ∧ (∀ c p, ¬(c = (caller, name) ∧ p = user.principal) →
            (remove_user_from_collection caller cname username s).2.grants c p = s.grants c p)) := by
  constructor
  · intro hu
    constructor
    · simp only [share_collection_with_user, hu]
    · simp only [remove_user_from_collection, hu]
  · intro user name hu hn
    have howner : caller = ((caller, name) : Coll).1 ∨
        s.grants (caller, name) caller = some .ReadWriteManage := Or.inl rfl
    refine ⟨?_, ?_, ?_, ?_, ?_, ?_⟩
    · simp only [share_collection_with_user, hu, hn, setUserRights, if_pos howner, eq_self_iff_true, true_or, if_true]
    · simp only [share_collection_with_user, hu, hn, setUserRights, if_pos howner, eq_self_iff_true, true_or, if_true]
      simp
    · intro c p hcp
      simp only [share_collection_with_user, hu, hn, setUserRights, if_pos howner, eq_self_iff_true, true_or, if_true]
      simp only [if_neg hcp]
    · simp only [remove_user_from_collection, hu, hn, removeUser, if_pos howner, eq_self_iff_true, true_or, if_true]
    · simp only [remove_user_from_collection, hu, hn, removeUser, if_pos howner, eq_self_iff_true, true_or, if_true]
      simp
    · intro c p hcp
      simp only [remove_user_from_collection, hu, hn, removeUser, if_pos howner, eq_self_iff_true, true_or, if_true]
      simp only [if_neg hcp]

/-- Witness for C7: sharing with an unregistered username fails with the
user-not-found error. -/
theorem claim_C7_witness :
    (share_collection_with_user 1 [] "bob" .Read initState).1 = .error "User not found" :=
  ((claim_C7 1 [] "bob" .Read initState).1 rfl).1

/-- Helper for C8: an element of a list is kept by `take n` unless the
truncation is full. -/
theorem mem_take_or_length {α : Type} (a : α) (l : List α) (n : Nat)
    (h : a ∈ l) : a ∈ l.take n ∨ (l.take n).length = n := by
  by_cases hl : l.length ≤ n
  · rw [List.take_of_length_le hl]
    exact Or.inl h
  · right
    rw [List.length_take]
    omega

/-- C8: `search_users` returns at most 10 users; each returned user has the
query as a case-sensitive substring of the username or the display name;
and the results are the first matches in ascending username order — they
are ascending, and any matching entry is either returned or the result is
already full. -/
theorem claim_C8 (q : String) (s : State)
    (hs : KV.Sorted s.users) (hkey : ∀ p ∈ s.users, p.2.username.data = p.1) :
    (search_users q s).length ≤ 10
    ∧ (∀ u ∈ search_users q s,
        strContains u.username q = true ∨ ∃ d, u.display_name = some d ∧ strContains d q = true)
    ∧ (search_users q s).Pairwise (fun u v => u.username.data < v.username.data)
    ∧ (∃ rest, ((s.users.filter (userMatches q)).map fun p => p.2)
        = search_users q s ++ rest)
    ∧ (∀ p ∈ s.users, userMatches q p = true →
        p.2 ∈ search_users q s ∨ (search_users q s).length = 10) := by
  have hs' : List.Pairwise (fun a b : List Char × User => a.1 < b.1) s.users := hs
  refine ⟨?_, ?_, ?_, ⟨_, (List.take_append_drop 10 _).symm⟩, ?_⟩
  · rw [search_users, List.length_take]
    omega
  · intro u hu
    have hu2 := List.take_subset _ _ hu
    obtain ⟨p, hp, hpu⟩ := List.mem_map.mp hu2
    have hp2 := List.mem_filter.mp hp
    have hkeyp := hkey p hp2.1
    have hm := hp2.2
    rw [userMatches, Bool.or_eq_true] at hm
    rcases hm with h1 | h1
    · left
      rw [show strContains u.username q = subMatch q.data u.username.data from rfl,
        ← hpu, hkeyp]
      exact h1
    · cases hd : p.2.display_name with
      | none => rw [hd] at h1; cases h1
      | some d =>
        right
        rw [hd] at h1
        exact ⟨d, by rw [← hpu, hd], h1⟩
  · rw [search_users]
    apply List.Pairwise.sublist (List.take_sublist _ _)
    rw [List.pairwise_map]
    apply List.Pairwise.imp_of_mem ?_ (List.Pairwise.filter _ hs')
    intro a b ha hb hab
    have ha2 := hkey a (List.mem_filter.mp ha).1
    have hb2 := hkey b (List.mem_filter.mp hb).1
    rw [ha2, hb2]
    exact hab
  · intro p hp hm
    have hpf : p ∈ s.users.filter (userMatches q) := List.mem_filter.mpr ⟨hp, hm⟩
    have hpm : p.2 ∈ (s.users.filter (userMatches q)).map fun p => p.2 :=
      List.mem_map.mpr ⟨p, hpf, rfl⟩
    rw [search_users]
    exact mem_take_or_length _ _ 10 hpm

/-- Witness for C8 on a concrete two-user state, querying for `b`. -/
theorem claim_C8_witness :
    (search_users "b" (register_user 2 1 "bob" none (register_user 1 0 "ab" (some "Bee") initState).2).2).length ≤ 10 :=
  (claim_C8 "b" (register_user 2 1 "bob" none (register_user 1 0 "ab" (some "Bee") initState).2).2
    (by decide) (by decide)).1

/-- With debug assertions enabled, every triple produced by the positional
pairing takes its metadata and its ciphertext from entries of the two input
sequences that share the triple's key. -/
theorem zipAsserting_mem (ms : List (Blob32 × FileMetadata))
    (vs : List (Blob32 × Bytes)) (l : List (Blob32 × Bytes × FileMetadata))
    (h : zipAsserting true ms vs = some l) :
    ∀ t ∈ l, (t.1, t.2.2) ∈ ms ∧ (t.1, t.2.1) ∈ vs := by
  induction ms generalizing vs l with
  | nil =>
    rw [zipAsserting] at h
    cases h
    simp
  | cons hd ms ih =>
    obtain ⟨kl, m⟩ := hd
    cases vs with
    | nil =>
      rw [zipAsserting] at h
      cases h
      simp
    | cons hd2 vs =>
      obtain ⟨kr, c⟩ := hd2
      rw [zipAsserting] at h
      by_cases hkk : kl = kr
      · rw [if_neg (by simp [hkk])] at h
        cases hz : zipAsserting true ms vs with
        | none => rw [hz] at h; cases h
        | some rest =>
          rw [hz] at h
          have hl : l = (kl, c, m) :: rest := by
            cases h
            rfl
          subst hl
          intro t ht
          rcases List.mem_cons.mp ht with h1 | h1
          · subst h1
            exact ⟨List.mem_cons_self _ _, by rw [hkk]; exact List.mem_cons_self _ _⟩
          · obtain ⟨h2, h3⟩ := ih vs rest hz t h1
            exact ⟨List.mem_cons_of_mem _ h2, List.mem_cons_of_mem _ h3⟩
      · rw [if_pos (by simp [hkk])] at h
        cases h

/-- C3 (amended): with debug assertions enabled, whenever
`get_files_in_collection_with_metadata` returns a listing, every returned
triple pairs the ciphertext and the metadata record stored at that same
key — it never mixes keys. (As stated, the claim fails: a divergence in
length alone is not detected, see the counterexample.) -/
theorem claim_C3 (caller owner : PrincipalT) (cname : Bytes) (s : State)
    (name : Blob32) (hn : bytebuf_to_blob cname = .ok name)
    (hs1 : KV.Sorted (s.md (owner, name))) (hs2 : KV.Sorted (s.vals (owner, name)))
    (l : List (Blob32 × Bytes × FileMetadata))
    (hres : get_files_in_collection_with_metadata true caller owner cname s = some (.ok l)) :
    ∀ t ∈ l, KV.find t.1 (s.md (owner, name)) = some t.2.2
      ∧ KV.find t.1 (s.vals (owner, name)) = some t.2.1 := by
  rw [get_files_in_collection_with_metadata, hn] at hres
  rcases Bool.eq_false_or_eq_true (authorized s caller (owner, name) .Read) with ha | ha
  · simp only [getEncryptedValuesForMap, ha, if_true] at hres
    cases hz : zipAsserting true (s.md (owner, name)) (s.vals (owner, name)) with
    | none => rw [hz] at hres; cases hres
    | some l' =>
      rw [hz] at hres
      have hll : l' = l := by
        cases hres
        rfl
      subst hll
      intro t ht
      obtain ⟨h1, h2⟩ := zipAsserting_mem _ _ _ hz t ht
      exact ⟨KV.find_eq_some_of_mem hs1 h1, KV.find_eq_some_of_mem hs2 h2⟩
  · simp only [getEncryptedValuesForMap, ha, Bool.false_eq_true, if_false] at hres
    cases hres

/-- Metadata record used by the C3 counterexample. -/
def fmA : FileMetadata :=
  { filename := "a", content_type := "t", file_size := 1, creation_date := 0,
    last_modification_date := 0, uploaded_by := 1, tags := [], description := none }

/-- Second metadata record used by the C3 counterexample. -/
def fmB : FileMetadata :=
  { fmA with filename := "b" }

/-- A state whose metadata index holds two keys for collection `(1, [])`
while the value store holds only the first: the two ascending key
sequences differ in length. -/
def divergentState : State :=
  { users := [], p2u := fun _ => none,
    vals := fun c => if c = ((1 : PrincipalT), ([] : Blob32)) then [([0], [9])] else [],
    md := fun c => if c = ((1 : PrincipalT), ([] : Blob32)) then [([0], fmA), ([1], fmB)] else [],
    grants := fun _ _ => none }

/-- C3 counterexample: on `divergentState` the two stores' ascending key
sequences for collection `(1, [])` differ positionally (in length), yet the
listing call — debug assertions enabled — neither aborts nor returns an
error: it returns the pairs of the common prefix. -/
theorem claim_C3_counterexample :
    ((divergentState.md (1, [])).map Prod.fst ≠ (divergentState.vals (1, [])).map Prod.fst)
    ∧ get_files_in_collection_with_metadata true 1 1 [] divergentState
        = some (.ok [([0], [9], fmA)]) := by
  constructor
  · decide
  · rfl

/-- Witness for the amended C3 on a concrete synchronized state. -/
theorem claim_C3_witness :
    KV.find ([0] : Blob32)
        ((upload_file_to_collection 1 5 1 [] [0] [7] "a" "t" 1 [] none initState).2.md (1, []))
      = some (FileMetadata.new "a" "t" 1 1 [] none 5) :=
  (claim_C3 1 1 []
    (upload_file_to_collection 1 5 1 [] [0] [7] "a" "t" 1 [] none initState).2
    [] rfl (by decide) (by decide) [([0], [7], FileMetadata.new "a" "t" 1 1 [] none 5)]
    rfl ([0], [7], FileMetadata.new "a" "t" 1 1 [] none 5) (by simp)).1
